import Mathlib

/-!
Verification development for the AutoTrustRoot assembly tool (`main.go`).

The program reads a trusted-root JSON manifest, transcodes each authority's
certificate chain from base64 DER to concatenated PEM, and patches the
resulting values into a YAML template under `spec.sigstoreKeys`.

We shallow-embed the program: Go's generic `map[string]interface{}` /
`[]interface{}` trees become the inductive `Value`; Go strings / byte
slices become `List Nat` (byte values); `encoding/base64.StdEncoding`,
`encoding/pem.Encode` and the functions `convertToPEM`, `updateYAML` and
the per-authority processing loop of `main` are translated directly.
`x509.ParseCertificate` is third-party library code and is abstracted by a
boolean predicate `parseOk` on the DER bytes; file I/O is modelled by
threading the document tree.
-/

namespace ATR

/-- Generic document tree, the shallow embedding of Go's
`map[string]interface{}` / `[]interface{}` / `string` / `nil` values as
produced by `encoding/json` and `gopkg.in/yaml.v3` unmarshalling.
Mappings are association lists; a Go string is its list of bytes. -/
inductive Value where
  | null : Value
  | str : List Nat → Value
  | num : Int → Value
  | bool : Bool → Value
  | seq : List Value → Value
  | map : List (String × Value) → Value

/-- Lookup of a key in a mapping (Go `m[k]`, yielding the nil interface,
i.e. `none`, when the key is absent). -/
def lookupKey (m : List (String × Value)) (k : String) : Option Value :=
  match m with
  | [] => none
  | (k0, v0) :: rest => if k0 = k then some v0 else lookupKey rest k

/-- Assignment `m[k] = v` on a Go map, embedded on association lists:
replace the first binding of `k` in place, or append a new binding. -/
def setKey (m : List (String × Value)) (k : String) (v : Value) :
    List (String × Value) :=
  match m with
  | [] => [(k, v)]
  | (k0, v0) :: rest => if k0 = k then (k, v) :: rest else (k0, v0) :: setKey rest k v

/-- Go type assertion `m[k].(map[string]interface{})`: succeeds exactly
when the key is present and its value is a mapping. -/
def getMap (m : List (String × Value)) (k : String) : Option (List (String × Value)) :=
  match lookupKey m k with
  | some (Value.map mm) => some mm
  | _ => none

/-- Go type assertion `m[k].([]interface{})`. -/
def getSeq (m : List (String × Value)) (k : String) : Option (List Value) :=
  match lookupKey m k with
  | some (Value.seq l) => some l
  | _ => none

/-- Go type assertion `m[k].(string)`. -/
def getStr (m : List (String × Value)) (k : String) : Option (List Nat) :=
  match lookupKey m k with
  | some (Value.str s) => some s
  | _ => none

/-- Bytes of an ASCII Lean string, used to write concrete Go strings. -/
def strBytes (s : String) : List Nat :=
  s.data.map Char.toNat

/-! ## base64 (`encoding/base64.StdEncoding`) -/

/-- The standard base64 alphabet: the character (byte) for a 6-bit value. -/
def b64Char (n : Nat) : Nat :=
  if n < 26 then 65 + n
  else if n < 52 then 97 + (n - 26)
  else if n < 62 then 48 + (n - 52)
  else if n = 62 then 43
  else 47

/-- Inverse alphabet: the 6-bit value of a base64 character, `none` for a
byte outside the alphabet (the padding byte 61, `=`, is not in it). -/
def b64Index (c : Nat) : Option Nat :=
  if 65 ≤ c ∧ c ≤ 90 then some (c - 65)
  else if 97 ≤ c ∧ c ≤ 122 then some (26 + (c - 97))
  else if 48 ≤ c ∧ c ≤ 57 then some (52 + (c - 48))
  else if c = 43 then some 62
  else if c = 47 then some 63
  else none

/-- `base64.StdEncoding.EncodeToString`: three input bytes become four
alphabet characters; a final group of one or two bytes is padded with
`=` (byte 61). -/
def b64Encode : List Nat → List Nat
  | [] => []
  | [a] => [b64Char (a / 4), b64Char (a % 4 * 16), 61, 61]
  | [a, b] => [b64Char (a / 4), b64Char (a % 4 * 16 + b / 16), b64Char (b % 16 * 4), 61]
  | a :: b :: c :: rest =>
      b64Char (a / 4) :: b64Char (a % 4 * 16 + b / 16) ::
        b64Char (b % 16 * 4 + c / 64) :: b64Char (c % 64) :: b64Encode rest

/-- Core of `base64.StdEncoding.DecodeString` on an input already freed
of CR/LF: groups of four characters, with `=` padding allowed only in the
final group (Go's std decoder does not reject non-zero trailing bits). -/
def b64Decode : List Nat → Option (List Nat)
  | [] => some []
  | c1 :: c2 :: c3 :: c4 :: rest =>
      match b64Index c1, b64Index c2 with
      | some s1, some s2 =>
          if c3 = 61 then
            if c4 = 61 ∧ rest = [] then some [s1 * 4 + s2 / 16] else none
          else
            match b64Index c3 with
            | some s3 =>
                if c4 = 61 then
                  if rest = [] then some [s1 * 4 + s2 / 16, s2 % 16 * 16 + s3 / 4]
                  else none
                else
                  match b64Index c4 with
                  | some s4 =>
                      (b64Decode rest).map
                        (fun r => (s1 * 4 + s2 / 16) :: (s2 % 16 * 16 + s3 / 4) ::
                          (s3 % 4 * 64 + s4) :: r)
                  | none => none
            | none => none
      | _, _ => none
  | _ => none

/-- `base64.StdEncoding.DecodeString`: the std decoder first ignores all
carriage returns and newlines anywhere in its input. -/
def b64DecodeGo (l : List Nat) : Option (List Nat) :=
  b64Decode (l.filter (fun c => !(c == 10 || c == 13)))

/-! ## PEM encoding (`encoding/pem.Encode` with block type CERTIFICATE) -/

/-- The bytes of the line `-----BEGIN CERTIFICATE-----` plus newline. -/
def beginLine : List Nat := strBytes "-----BEGIN CERTIFICATE-----" ++ [10]

/-- The bytes of the line `-----END CERTIFICATE-----` plus newline. -/
def endLine : List Nat := strBytes "-----END CERTIFICATE-----" ++ [10]

/-- `pem.Encode`'s line breaker: the base64 text is emitted in lines of at
most 64 characters, each line (the final partial one included) followed by
a newline; empty input emits nothing. The fuel argument bounds the
recursion and is immaterial once it is at least the list length. -/
def wrap64Aux : Nat → List Nat → List Nat
  | _, [] => []
  | 0, _ :: _ => []
  | fuel + 1, x :: xs => (x :: xs).take 64 ++ 10 :: wrap64Aux fuel ((x :: xs).drop 64)

/-- Line-wrapped base64 body of a PEM block. -/
def wrap64 (l : List Nat) : List Nat := wrap64Aux l.length l

/-- `pem.Encode` of a `CERTIFICATE` block: header line, wrapped base64 of
the DER bytes, footer line. -/
def pemEncode (der : List Nat) : List Nat :=
  beginLine ++ wrap64 (b64Encode der) ++ endLine

/-- `convertToPEM` from `main.go`: parse the certificate to ensure it is
valid (`x509.ParseCertificate`, abstracted by `parseOk`), then encode the
same raw bytes as a PEM `CERTIFICATE` block. -/
def convertToPEM (parseOk : List Nat → Bool) (cert : List Nat) :
    Except String (List Nat) :=
  if parseOk cert then Except.ok (pemEncode cert)
  else Except.error "failed to parse certificate"

/-! ## The certificate transcoder (inner loop of `main`) -/

/-- One iteration of the certificate loop of `main` (lines 109-136):
type-assert the certificate to a mapping, its `rawBytes` field to a
string, base64-decode it, and convert to PEM; `none` means the
certificate is logged and skipped. -/
def processCert (parseOk : List Nat → Bool) (v : Value) : Option (List Nat) :=
  match v with
  | Value.map cm =>
      match getStr cm "rawBytes" with
      | some rawBytes =>
          match b64DecodeGo rawBytes with
          | some decoded =>
              match convertToPEM parseOk decoded with
              | Except.ok pem => some pem
              | Except.error _ => none
          | none => none
      | none => none
  | _ => none

/-- The accumulated `pemData` after the certificate loop: each surviving
certificate appends its PEM block, skipped ones append nothing. -/
def buildPemData (parseOk : List Nat → Bool) : List Value → List Nat
  | [] => []
  | c :: rest =>
      (match processCert parseOk c with
       | some pem => pem
       | none => []) ++ buildPemData parseOk rest

/-- The per-entry prologue of the authority loop of `main` (lines 88-139):
type-assert the entry to a mapping, its `certChain` field to a mapping,
its `certificates` field to a sequence, and produce the base64-encoded
concatenated PEM chain; `none` means the entry is logged and skipped
without being written. -/
def entryCertChain (parseOk : List Nat → Bool) (v : Value) : Option (List Nat) :=
  match v with
  | Value.map authorityData =>
      match getMap authorityData "certChain" with
      | some certChainData =>
          match getSeq certChainData "certificates" with
          | some certificates => some (b64Encode (buildPemData parseOk certificates))
          | none => none
      | none => none
  | _ => none

/-! ## The tree patcher (`updateYAML`) -/

/-- The `for len(authorityList) <= index` growing loop of `updateYAML`:
append empty mappings until the list has `index + 1` elements. The fuel
`index + 1 - l.length` is exactly the number of iterations the Go loop
performs. -/
def growListAux : Nat → List Value → List Value
  | 0, l => l
  | n + 1, l => growListAux n (l ++ [Value.map []])

/-- Ensure the authority list is large enough (lines 213-216). -/
def growList (l : List Value) (index : Nat) : List Value :=
  growListAux (index + 1 - l.length) l

/-- Writing the four derived fields on an authority entry
(lines 226-231): `subject` (with `organization` and `commonName`), `uri`
and `certChain`, each overwriting any prior value. -/
def patchedEntry (entry : List (String × Value))
    (organization commonName uri certChain : List Nat) : List (String × Value) :=
  setKey (setKey (setKey entry "subject"
        (Value.map [("organization", Value.str organization),
                    ("commonName", Value.str commonName)]))
      "uri" (Value.str uri))
    "certChain" (Value.str certChain)

/-- `updateYAML` from `main.go`, with the file I/O and YAML
(de)serialization abstracted away: the function maps the parsed document
tree to the patched document tree. Matching the Go map semantics, an
absent or ill-typed authority list is replaced by a fresh slice of
`index + 1` nil interfaces (`Value.null`); the growing loop then appends
empty mappings; a non-mapping element at `index` is replaced by an empty
mapping; and the nested updates through the `spec` and `sigstoreKeys`
references are written back in place. -/
def updateYAML (root : List (String × Value)) (authority : String) (index : Nat)
    (organization commonName uri certChain : List Nat) :
    Except String (List (String × Value)) :=
  match getMap root "spec" with
  | none => Except.error "missing spec section in YAML"
  | some spec =>
      match getMap spec "sigstoreKeys" with
      | none => Except.error "missing sigstoreKeys section in YAML"
      | some sigstoreKeys =>
          let authorityList :=
            match getSeq sigstoreKeys authority with
            | some l => l
            | none => List.replicate (index + 1) Value.null
          let authorityList := growList authorityList index
          let entry :=
            match authorityList[index]? with
            | some (Value.map e) => e
            | _ => []
          let authorityList :=
            authorityList.set index
              (Value.map (patchedEntry entry organization commonName uri certChain))
          let sigstoreKeys := setKey sigstoreKeys authority (Value.seq authorityList)
          let spec := setKey spec "sigstoreKeys" (Value.map sigstoreKeys)
          Except.ok (setKey root "spec" (Value.map spec))

/-! ## The driver (`main`'s authority loops) -/

/-- One iteration of the authority-entry loop (lines 88-145): a skipped
entry or a failed `updateYAML` leaves the output document unchanged (the
error is only logged); otherwise the patched document replaces it. -/
def processEntry (parseOk : List Nat → Bool) (authority : String) (i : Nat)
    (v : Value) (organization commonName uri : List Nat)
    (doc : List (String × Value)) : List (String × Value) :=
  match entryCertChain parseOk v with
  | none => doc
  | some certChain =>
      match updateYAML doc authority i organization commonName uri certChain with
      | Except.ok doc2 => doc2
      | Except.error _ => doc

/-- The authority-entry loop from index `i` on: each entry is processed in
turn against the current output document. -/
def processEntriesFrom (parseOk : List Nat → Bool) (authority : String)
    (organization commonName uri : List Nat) :
    Nat → List Value → List (String × Value) → List (String × Value)
  | _, [], doc => doc
  | i, v :: rest, doc =>
      processEntriesFrom parseOk authority organization commonName uri (i + 1) rest
        (processEntry parseOk authority i v organization commonName uri doc)

/-- One iteration of the outer loop over the two authority kinds
(lines 79-146): a missing or ill-typed sequence in the trusted root is
logged and the kind is skipped. -/
def processKind (parseOk : List Nat → Bool)
    (trustedRoot : List (String × Value)) (authority : String)
    (organization commonName uri : List Nat)
    (doc : List (String × Value)) : List (String × Value) :=
  match getSeq trustedRoot authority with
  | none => doc
  | some authorities =>
      processEntriesFrom parseOk authority organization commonName uri 0 authorities doc

/-- The whole transformation of `main` after the files are read: the
template document is patched for every entry of `certificateAuthorities`,
then of `timestampAuthorities`. -/
def processAll (parseOk : List Nat → Bool) (trustedRoot : List (String × Value))
    (organization commonName uri : List Nat)
    (doc : List (String × Value)) : List (String × Value) :=
  processKind parseOk trustedRoot "timestampAuthorities" organization commonName uri
    (processKind parseOk trustedRoot "certificateAuthorities" organization commonName
      uri doc)

/-- `main` as a function of its inputs: the flag values (byte strings),
the parsed template document and trusted root, and the abstracted
certificate parser. `Except.error` models `log.Fatalf` — a non-zero
process exit; the required-flag validation (lines 34-39) runs before the
output file is truncated, created or written, so on the error path no
output document is ever produced. -/
def mainModel (templateFilePath trustedRootPath : List Nat)
    (parseOk : List Nat → Bool) (trustedRoot : List (String × Value))
    (organization commonName uri : List Nat)
    (templateDoc : List (String × Value)) :
    Except String (List (String × Value)) :=
  if templateFilePath = [] then
    Except.error "The --template-filename flag is required"
  else if trustedRootPath = [] then
    Except.error "The --trusted-root-path flag is required"
  else
    Except.ok (processAll parseOk trustedRoot organization commonName uri templateDoc)

/-! ## Lemmas about the base64 embedding -/

theorem b64Index_b64Char : ∀ n < 64, b64Index (b64Char n) = some n := by decide

theorem b64Char_ne_pad : ∀ n < 64, b64Char n ≠ 61 := by decide

theorem b64Char_range (n : Nat) : 43 ≤ b64Char n ∧ b64Char n < 123 := by
  unfold b64Char; split_ifs <;> omega

theorem b64Index_lt (c s : Nat) (h : b64Index c = some s) : s < 64 := by
  unfold b64Index at h
  split_ifs at h <;> simp_all <;> omega

theorem mem_b64Encode (l : List Nat) (x : Nat) (hx : x ∈ b64Encode l) :
    (43 ≤ x ∧ x < 123) ∨ x = 61 := by
  induction l using b64Encode.induct with
  | case1 => simp [b64Encode] at hx
  | case2 a =>
      simp only [b64Encode, List.mem_cons, List.not_mem_nil, or_false] at hx
      rcases hx with rfl | rfl | rfl | rfl
      · exact Or.inl (b64Char_range _)
      · exact Or.inl (b64Char_range _)
      · exact Or.inr rfl
      · exact Or.inr rfl
  | case3 a b =>
      simp only [b64Encode, List.mem_cons, List.not_mem_nil, or_false] at hx
      rcases hx with rfl | rfl | rfl | rfl
      · exact Or.inl (b64Char_range _)
      · exact Or.inl (b64Char_range _)
      · exact Or.inl (b64Char_range _)
      · exact Or.inr rfl
  | case4 a b c rest ih =>
      simp only [b64Encode, List.mem_cons] at hx
      rcases hx with rfl | rfl | rfl | rfl | hx
      · exact Or.inl (b64Char_range _)
      · exact Or.inl (b64Char_range _)
      · exact Or.inl (b64Char_range _)
      · exact Or.inl (b64Char_range _)
      · exact ih hx

/-- Round trip: decoding the standard base64 encoding of a byte string
recovers it exactly. -/
theorem b64_roundtrip (l : List Nat) (h : ∀ b ∈ l, b < 256) :
    b64Decode (b64Encode l) = some l := by
  induction l using b64Encode.induct with
  | case1 => rfl
  | case2 a =>
      have ha : a < 256 := h a (by simp)
      simp only [b64Encode, b64Decode]
      simp only [b64Index_b64Char _ (by omega : a / 4 < 64),
        b64Index_b64Char _ (by omega : a % 4 * 16 < 64)]
      simp only [Option.some.injEq, List.cons.injEq, and_true, reduceIte, and_self,
        if_pos rfl]
      omega
  | case3 a b =>
      have ha : a < 256 := h a (by simp)
      have hb : b < 256 := h b (by simp)
      simp only [b64Encode, b64Decode]
      simp only [b64Index_b64Char _ (by omega : a / 4 < 64),
        b64Index_b64Char _ (by omega : a % 4 * 16 + b / 16 < 64),
        b64Index_b64Char _ (by omega : b % 16 * 4 < 64),
        b64Char_ne_pad _ (by omega : b % 16 * 4 < 64)]
      simp only [Option.some.injEq, List.cons.injEq, and_true, reduceIte, if_pos rfl]
      omega
  | case4 a b c rest ih =>
      have ha : a < 256 := h a (by simp)
      have hb : b < 256 := h b (by simp)
      have hc : c < 256 := h c (by simp)
      have hrest : ∀ x ∈ rest, x < 256 := fun x hx => h x (by simp [hx])
      simp only [b64Encode, b64Decode]
      simp only [b64Index_b64Char _ (by omega : a / 4 < 64),
        b64Index_b64Char _ (by omega : a % 4 * 16 + b / 16 < 64),
        b64Index_b64Char _ (by omega : b % 16 * 4 + c / 64 < 64),
        b64Index_b64Char _ (by omega : c % 64 < 64),
        b64Char_ne_pad _ (by omega : b % 16 * 4 + c / 64 < 64),
        b64Char_ne_pad _ (by omega : c % 64 < 64)]
      simp only [ih hrest, Option.map_some', Option.some.injEq, List.cons.injEq,
        and_true, reduceIte]
      omega

/-- Every byte produced by the base64 decoder is a byte value. -/
theorem b64Decode_bytes (l : List Nat) (r : List Nat) (h : b64Decode l = some r) :
    ∀ b ∈ r, b < 256 := by
  induction l using b64Decode.induct generalizing r with
  | case1 =>
      simp only [b64Decode, Option.some.injEq] at h
      subst h; simp
  | case2 c1 c2 c4 rest s1 s2 h2 h1 hcond =>
      obtain ⟨rfl, rfl⟩ := hcond
      have l1 := b64Index_lt _ _ h1
      have l2 := b64Index_lt _ _ h2
      simp only [b64Decode, h1, h2, and_self, reduceIte, if_pos rfl,
        Option.some.injEq] at h
      subst h
      simp only [List.mem_cons, List.not_mem_nil, or_false]
      rintro b rfl
      omega
  | case3 c1 c2 c4 rest s1 s2 h2 h1 hcond =>
      simp only [b64Decode, h1, h2, if_pos rfl, if_neg hcond, reduceIte] at h
      cases h
  | case4 c1 c2 c3 s1 s2 h2 h1 hc3 s3 h3 =>
      have l1 := b64Index_lt _ _ h1
      have l2 := b64Index_lt _ _ h2
      have l3 := b64Index_lt _ _ h3
      simp only [b64Decode, h1, h2, h3, if_neg hc3, if_pos rfl, reduceIte,
        Option.some.injEq] at h
      subst h
      simp only [List.mem_cons, List.not_mem_nil, or_false]
      rintro b (rfl | rfl) <;> omega
  | case5 c1 c2 c3 rest s1 s2 h2 h1 hc3 s3 h3 hrest =>
      simp only [b64Decode, h1, h2, h3, if_neg hc3, if_pos rfl, if_neg hrest,
        reduceIte] at h
      cases h
  | case6 c1 c2 c3 c4 rest s1 s2 h2 h1 hc3 s3 h3 hc4 s4 h4 ih =>
      have l1 := b64Index_lt _ _ h1
      have l2 := b64Index_lt _ _ h2
      have l3 := b64Index_lt _ _ h3
      have l4 := b64Index_lt _ _ h4
      simp only [b64Decode, h1, h2, h3, h4, if_neg hc3, if_neg hc4] at h
      cases hr : b64Decode rest with
      | none => rw [hr] at h; simp at h
      | some r0 =>
          rw [hr] at h
          simp only [Option.map_some', Option.some.injEq] at h
          subst h
          have ihh := ih r0 hr
          simp only [List.mem_cons]
          rintro b (rfl | rfl | rfl | hb)
          · omega
          · omega
          · omega
          · exact ihh b hb
  | case7 c1 c2 c3 c4 rest s1 s2 h2 h1 hc3 s3 h3 hc4 h4 =>
      simp only [b64Decode, h1, h2, h3, h4, if_neg hc3, if_neg hc4] at h
      cases h
  | case8 c1 c2 c3 c4 rest s1 s2 h2 h1 hc3 h3 =>
      simp only [b64Decode, h1, h2, h3, if_neg hc3] at h
      cases h
  | case9 c1 c2 c3 c4 rest hfail =>
      rcases h1 : b64Index c1 with _ | s1
      · simp only [b64Decode, h1] at h
        cases h
      · rcases h2 : b64Index c2 with _ | s2
        · simp only [b64Decode, h1, h2] at h
          cases h
        · exact (hfail s1 s2 h1 h2).elim
  | case10 t ht0 ht4 =>
      rcases t with _ | ⟨a, _ | ⟨b, _ | ⟨c, _ | ⟨d, rest⟩⟩⟩⟩
      · exact absurd rfl ht0
      · simp only [b64Decode] at h; cases h
      · simp only [b64Decode] at h; cases h
      · simp only [b64Decode] at h; cases h
      · exact absurd rfl (ht4 a b c d rest)

/-- The encoder never emits a carriage return or a newline, so the
CR/LF-stripping pass of Go's decoder leaves its output untouched. -/
theorem filter_b64Encode (l : List Nat) :
    (b64Encode l).filter (fun c => !(c == 10 || c == 13)) = b64Encode l := by
  refine List.filter_eq_self.mpr (fun x hx => ?_)
  rcases mem_b64Encode l x hx with ⟨h1, _⟩ | rfl <;> simp <;> omega

/-- Round trip through the Go decoder (which strips CR/LF first). -/
theorem b64Go_roundtrip (l : List Nat) (h : ∀ b ∈ l, b < 256) :
    b64DecodeGo (b64Encode l) = some l := by
  unfold b64DecodeGo
  rw [filter_b64Encode, b64_roundtrip l h]

theorem mem_wrap64Aux (n : Nat) (l : List Nat) (x : Nat)
    (hx : x ∈ wrap64Aux n l) : x = 10 ∨ x ∈ l := by
  induction n generalizing l with
  | zero => cases l <;> simp [wrap64Aux] at hx
  | succ n ih =>
      cases l with
      | nil => simp [wrap64Aux] at hx
      | cons a as =>
          simp only [wrap64Aux, List.mem_append, List.mem_cons] at hx
          rcases hx with hx | rfl | hx
          · exact Or.inr (List.mem_of_mem_take hx)
          · exact Or.inl rfl
          · rcases ih _ hx with h10 | hmem
            · exact Or.inl h10
            · exact Or.inr (List.mem_of_mem_drop hmem)

/-- Stripping CR/LF from the line-wrapped text recovers exactly the
unwrapped text (with CR/LF already stripped). -/
theorem filter_wrap64Aux (n : Nat) (l : List Nat) (hn : l.length ≤ n) :
    (wrap64Aux n l).filter (fun c => !(c == 10 || c == 13)) =
      l.filter (fun c => !(c == 10 || c == 13)) := by
  induction n generalizing l with
  | zero =>
      cases l with
      | nil => rfl
      | cons a as => simp at hn
  | succ n ih =>
      cases l with
      | nil => rfl
      | cons a as =>
          have hlen : ((a :: as).drop 64).length ≤ n := by
            simp only [List.length_drop, List.length_cons]
            simp only [List.length_cons] at hn
            omega
          simp only [wrap64Aux]
          rw [List.filter_append, List.filter_cons_of_neg (by simp), ih _ hlen,
            ← List.filter_append, List.take_append_drop]

/-- Decoding the line-wrapped base64 body with Go's decoder recovers the
encoded bytes. -/
theorem wrap64_roundtrip (l : List Nat) (h : ∀ b ∈ l, b < 256) :
    b64DecodeGo (wrap64 (b64Encode l)) = some l := by
  unfold b64DecodeGo wrap64
  rw [filter_wrap64Aux _ _ le_rfl, filter_b64Encode, b64_roundtrip l h]

/-- Every byte of a produced PEM block is a byte value. -/
theorem mem_pemEncode (der : List Nat) (x : Nat) (hx : x ∈ pemEncode der) :
    x < 256 := by
  unfold pemEncode at hx
  simp only [List.mem_append] at hx
  rcases hx with (hx | hx) | hx
  · revert hx; revert x; decide
  · rcases mem_wrap64Aux _ _ _ hx with rfl | hmem
    · omega
    · rcases mem_b64Encode _ _ hmem with ⟨_, h2⟩ | rfl <;> omega
  · revert hx; revert x; decide

/-! ## Lemmas about the certificate transcoder -/

/-- Characterization of a successful `processCert`: the certificate was a
mapping with a string `rawBytes` field whose base64 decoding parsed, and
the produced block is the PEM encoding of exactly those DER bytes. -/
theorem processCert_some (parseOk : List Nat → Bool) (v : Value) (pem : List Nat)
    (h : processCert parseOk v = some pem) :
    ∃ cm raw der, v = Value.map cm ∧ getStr cm "rawBytes" = some raw ∧
      b64DecodeGo raw = some der ∧ parseOk der = true ∧ pem = pemEncode der := by
  cases v with
  | null => simp [processCert] at h
  | str s => simp [processCert] at h
  | num n => simp [processCert] at h
  | bool b => simp [processCert] at h
  | seq l => simp [processCert] at h
  | map cm =>
      cases hraw : getStr cm "rawBytes" with
      | none => simp [processCert, hraw] at h
      | some raw =>
          cases hdec : b64DecodeGo raw with
          | none => simp [processCert, hraw, hdec] at h
          | some der =>
              cases hp : parseOk der with
              | false => simp [processCert, convertToPEM, hraw, hdec, hp] at h
              | true =>
                  simp [processCert, convertToPEM, hraw, hdec, hp] at h
                  exact ⟨cm, raw, der, rfl, hraw, hdec, hp, h.symm⟩

/-- `processCert` succeeds exactly on a mapping with a string `rawBytes`
whose base64 decoding the certificate parser accepts. -/
theorem processCert_eq_some (parseOk : List Nat → Bool) (cm : List (String × Value))
    (raw der : List Nat) (hraw : getStr cm "rawBytes" = some raw)
    (hdec : b64DecodeGo raw = some der) (hp : parseOk der = true) :
    processCert parseOk (Value.map cm) = some (pemEncode der) := by
  simp [processCert, convertToPEM, hraw, hdec, hp]

/-- The accumulated PEM text is the concatenation, in original order, of
the blocks of the certificates that survived. -/
theorem buildPemData_eq_join (parseOk : List Nat → Bool) (certs : List Value) :
    buildPemData parseOk certs = (certs.filterMap (processCert parseOk)).join := by
  induction certs with
  | nil => rfl
  | cons c rest ih =>
      cases hc : processCert parseOk c with
      | none => simp [buildPemData, List.filterMap_cons, hc, ih]
      | some pem => simp [buildPemData, List.filterMap_cons, hc, ih]

/-- Every byte of the accumulated PEM text is a byte value. -/
theorem buildPemData_bytes (parseOk : List Nat → Bool) (certs : List Value) :
    ∀ x ∈ buildPemData parseOk certs, x < 256 := by
  induction certs with
  | nil => simp [buildPemData]
  | cons c rest ih =>
      intro x hx
      simp only [buildPemData, List.mem_append] at hx
      rcases hx with hx | hx
      · cases hc : processCert parseOk c with
        | none => rw [hc] at hx; simp at hx
        | some pem =>
            rw [hc] at hx
            obtain ⟨_, _, der, _, _, _, _, rfl⟩ := processCert_some _ _ _ hc
            exact mem_pemEncode der x hx
      · exact ih x hx

/-- Appending certificate lists appends their accumulated PEM text. -/
theorem buildPemData_append (parseOk : List Nat → Bool) (l1 l2 : List Value) :
    buildPemData parseOk (l1 ++ l2) =
      buildPemData parseOk l1 ++ buildPemData parseOk l2 := by
  induction l1 with
  | nil => rfl
  | cons c rest ih => simp [buildPemData, ih, List.append_assoc]

/-! ## Lemmas about the mapping operations -/

theorem lookupKey_setKey_self (m : List (String × Value)) (k : String) (v : Value) :
    lookupKey (setKey m k v) k = some v := by
  induction m with
  | nil => simp [setKey, lookupKey]
  | cons p rest ih =>
      obtain ⟨k0, v0⟩ := p
      by_cases hk : k0 = k
      · simp [setKey, lookupKey, hk]
      · simp [setKey, lookupKey, hk, ih]

theorem lookupKey_setKey_ne (m : List (String × Value)) (k k' : String) (v : Value)
    (h : k' ≠ k) : lookupKey (setKey m k v) k' = lookupKey m k' := by
  have hkk : k ≠ k' := Ne.symm h
  induction m with
  | nil => simp [setKey, lookupKey, hkk]
  | cons p rest ih =>
      obtain ⟨k0, v0⟩ := p
      by_cases hk : k0 = k
      · subst hk
        simp [setKey, lookupKey, hkk]
      · simp [setKey, lookupKey, hk, ih]

/-- Writing back the value already present leaves the mapping unchanged
(the Go in-place map mutation composed with our persistent embedding). -/
theorem setKey_of_lookupKey (m : List (String × Value)) (k : String) (v : Value)
    (h : lookupKey m k = some v) : setKey m k v = m := by
  induction m with
  | nil => simp [lookupKey] at h
  | cons p rest ih =>
      obtain ⟨k0, v0⟩ := p
      by_cases hk : k0 = k
      · subst hk
        simp [lookupKey] at h
        simp [setKey, h]
      · simp only [lookupKey, if_neg hk] at h
        simp [setKey, hk, ih h]

theorem getMap_setKey_self (m : List (String × Value)) (k : String)
    (mm : List (String × Value)) :
    getMap (setKey m k (Value.map mm)) k = some mm := by
  simp [getMap, lookupKey_setKey_self]

theorem getMap_setKey_ne (m : List (String × Value)) (k k' : String) (v : Value)
    (h : k' ≠ k) : getMap (setKey m k v) k' = getMap m k' := by
  simp [getMap, lookupKey_setKey_ne _ _ _ _ h]

theorem getSeq_setKey_self (m : List (String × Value)) (k : String) (l : List Value) :
    getSeq (setKey m k (Value.seq l)) k = some l := by
  simp [getSeq, lookupKey_setKey_self]

theorem getSeq_setKey_ne (m : List (String × Value)) (k k' : String) (v : Value)
    (h : k' ≠ k) : getSeq (setKey m k v) k' = getSeq m k' := by
  simp [getSeq, lookupKey_setKey_ne _ _ _ _ h]

/-! ## Lemmas about the growing loop -/

theorem growListAux_eq (n : Nat) (l : List Value) :
    growListAux n l = l ++ List.replicate n (Value.map []) := by
  induction n generalizing l with
  | zero => simp [growListAux]
  | succ n ih =>
      rw [growListAux, ih, List.append_assoc]
      congr 1

theorem growList_eq (l : List Value) (index : Nat) :
    growList l index = l ++ List.replicate (index + 1 - l.length) (Value.map []) :=
  growListAux_eq _ _

theorem growList_length (l : List Value) (index : Nat) :
    (growList l index).length = max l.length (index + 1) := by
  rw [growList_eq]
  simp only [List.length_append, List.length_replicate]
  omega

theorem growList_of_lt (l : List Value) (index : Nat) (h : index < l.length) :
    growList l index = l := by
  rw [growList_eq]
  have : index + 1 - l.length = 0 := by omega
  simp [this]

theorem growList_getElem?_lt (l : List Value) (index j : Nat) (h : j < l.length) :
    (growList l index)[j]? = l[j]? := by
  rw [growList_eq, List.getElem?_append, if_pos h]

theorem growList_getElem?_ge (l : List Value) (index j : Nat)
    (hj : l.length ≤ j) (hj2 : j < index + 1) :
    (growList l index)[j]? = some (Value.map []) := by
  rw [growList_eq, List.getElem?_append_right hj, List.getElem?_replicate]
  rw [if_pos (by omega)]

/-! ## Structural lemmas about `updateYAML` -/

/-- The authority list before the entry is patched: the existing sequence
(or, when absent or ill-typed, a fresh slice of nil interfaces) grown to
`index + 1` elements. -/
def baseList (sk : List (String × Value)) (authority : String) (index : Nat) :
    List Value :=
  growList
    (match getSeq sk authority with
     | some l => l
     | none => List.replicate (index + 1) Value.null) index

/-- The entry mapping taken at `index`, an empty mapping when the element
there is not a mapping. -/
def entryAt (l : List Value) (index : Nat) : List (String × Value) :=
  match l[index]? with
  | some (Value.map e) => e
  | _ => []

/-- The authority list after `updateYAML` patched position `index`. -/
def updatedList (sk : List (String × Value)) (authority : String) (index : Nat)
    (organization commonName uri certChain : List Nat) : List Value :=
  (baseList sk authority index).set index
    (Value.map (patchedEntry (entryAt (baseList sk authority index) index)
      organization commonName uri certChain))

theorem updateYAML_eq (root spec sk : List (String × Value)) (authority : String)
    (index : Nat) (organization commonName uri certChain : List Nat)
    (hspec : getMap root "spec" = some spec)
    (hsk : getMap spec "sigstoreKeys" = some sk) :
    updateYAML root authority index organization commonName uri certChain =
      Except.ok (setKey root "spec" (Value.map (setKey spec "sigstoreKeys"
        (Value.map (setKey sk authority
          (Value.seq (updatedList sk authority index
            organization commonName uri certChain))))))) := by
  unfold updateYAML
  split
  · rename_i heq
    rw [hspec] at heq
    cases heq
  · rename_i spec2 heq
    rw [hspec] at heq
    injection heq with h2
    subst h2
    split
    · rename_i heq2
      rw [hsk] at heq2
      cases heq2
    · rename_i sk2 heq2
      rw [hsk] at heq2
      injection heq2 with h3
      subst h3
      rfl

theorem updateYAML_err_spec (root : List (String × Value)) (authority : String)
    (index : Nat) (organization commonName uri certChain : List Nat)
    (hspec : getMap root "spec" = none) :
    updateYAML root authority index organization commonName uri certChain =
      Except.error "missing spec section in YAML" := by
  unfold updateYAML
  split
  · rfl
  · rename_i spec2 heq
    rw [hspec] at heq
    cases heq

theorem updateYAML_err_sk (root spec : List (String × Value)) (authority : String)
    (index : Nat) (organization commonName uri certChain : List Nat)
    (hspec : getMap root "spec" = some spec)
    (hsk : getMap spec "sigstoreKeys" = none) :
    updateYAML root authority index organization commonName uri certChain =
      Except.error "missing sigstoreKeys section in YAML" := by
  unfold updateYAML
  split
  · rename_i heq
    rw [hspec] at heq
    cases heq
  · rename_i spec2 heq
    rw [hspec] at heq
    injection heq with h2
    subst h2
    split
    · rfl
    · rename_i sk2 heq2
      rw [hsk] at heq2
      cases heq2

theorem updatedList_length (sk : List (String × Value)) (authority : String)
    (index : Nat) (organization commonName uri certChain : List Nat) :
    (updatedList sk authority index organization commonName uri certChain).length =
      (baseList sk authority index).length := by
  unfold updatedList
  exact List.length_set _ _ _

theorem baseList_length_pos (sk : List (String × Value)) (authority : String)
    (index : Nat) : index < (baseList sk authority index).length := by
  unfold baseList
  rw [growList_length]
  cases getSeq sk authority <;> simp <;> omega

theorem updatedList_getElem?_self (sk : List (String × Value)) (authority : String)
    (index : Nat) (organization commonName uri certChain : List Nat) :
    (updatedList sk authority index organization commonName uri certChain)[index]? =
      some (Value.map (patchedEntry (entryAt (baseList sk authority index) index)
        organization commonName uri certChain)) := by
  unfold updatedList
  exact List.getElem?_set_eq_of_lt _ (baseList_length_pos sk authority index)

theorem updatedList_getElem?_ne (sk : List (String × Value)) (authority : String)
    (index j : Nat) (organization commonName uri certChain : List Nat)
    (h : j ≠ index) :
    (updatedList sk authority index organization commonName uri certChain)[j]? =
      (baseList sk authority index)[j]? := by
  unfold updatedList
  exact List.getElem?_set_ne (by omega)

/-- The three patched fields always read back as written. -/
theorem patchedEntry_fields (entry : List (String × Value))
    (organization commonName uri certChain : List Nat) :
    lookupKey (patchedEntry entry organization commonName uri certChain) "certChain"
        = some (Value.str certChain) ∧
    lookupKey (patchedEntry entry organization commonName uri certChain) "uri"
        = some (Value.str uri) ∧
    lookupKey (patchedEntry entry organization commonName uri certChain) "subject"
        = some (Value.map [("organization", Value.str organization),
                           ("commonName", Value.str commonName)]) := by
  unfold patchedEntry
  refine ⟨lookupKey_setKey_self _ _ _, ?_, ?_⟩
  · rw [lookupKey_setKey_ne _ _ _ _ (by decide), lookupKey_setKey_self]
  · rw [lookupKey_setKey_ne _ _ _ _ (by decide),
      lookupKey_setKey_ne _ _ _ _ (by decide), lookupKey_setKey_self]

/-- Fields other than the three patched ones are untouched. -/
theorem patchedEntry_frame (entry : List (String × Value))
    (organization commonName uri certChain : List Nat) (k : String)
    (h1 : k ≠ "subject") (h2 : k ≠ "uri") (h3 : k ≠ "certChain") :
    lookupKey (patchedEntry entry organization commonName uri certChain) k =
      lookupKey entry k := by
  unfold patchedEntry
  rw [lookupKey_setKey_ne _ _ _ _ h3, lookupKey_setKey_ne _ _ _ _ h2,
    lookupKey_setKey_ne _ _ _ _ h1]

/-- Patching the same fields with the same values twice is the same as
patching them once. -/
theorem patchedEntry_idem (entry : List (String × Value))
    (organization commonName uri certChain : List Nat) :
    patchedEntry (patchedEntry entry organization commonName uri certChain)
        organization commonName uri certChain =
      patchedEntry entry organization commonName uri certChain := by
  obtain ⟨hcc, huri, hsub⟩ := patchedEntry_fields entry organization commonName uri certChain
  rw [show patchedEntry (patchedEntry entry organization commonName uri certChain)
        organization commonName uri certChain =
      setKey (setKey (setKey (patchedEntry entry organization commonName uri certChain)
          "subject" (Value.map [("organization", Value.str organization),
            ("commonName", Value.str commonName)]))
        "uri" (Value.str uri)) "certChain" (Value.str certChain) from rfl]
  rw [setKey_of_lookupKey _ _ _ hsub, setKey_of_lookupKey _ _ _ huri,
    setKey_of_lookupKey _ _ _ hcc]

theorem baseList_of_getSeq (sk : List (String × Value)) (authority : String)
    (index : Nat) (l : List Value) (hl : getSeq sk authority = some l) :
    baseList sk authority index = growList l index := by
  unfold baseList
  rw [hl]

theorem baseList_of_getSeq_none (sk : List (String × Value)) (authority : String)
    (index : Nat) (hl : getSeq sk authority = none) :
    baseList sk authority index =
      growList (List.replicate (index + 1) Value.null) index := by
  unfold baseList
  rw [hl]

/-- Inversion of a successful `updateYAML`: the `spec` and `sigstoreKeys`
sections existed and the result is the written-back tree. -/
theorem updateYAML_ok_inv (root root1 : List (String × Value)) (authority : String)
    (index : Nat) (organization commonName uri certChain : List Nat)
    (h : updateYAML root authority index organization commonName uri certChain =
      Except.ok root1) :
    ∃ spec sk, getMap root "spec" = some spec ∧
      getMap spec "sigstoreKeys" = some sk ∧
      root1 = setKey root "spec" (Value.map (setKey spec "sigstoreKeys"
        (Value.map (setKey sk authority
          (Value.seq (updatedList sk authority index
            organization commonName uri certChain)))))) := by
  cases hspec : getMap root "spec" with
  | none =>
      rw [updateYAML_err_spec _ _ _ _ _ _ _ hspec] at h
      cases h
  | some spec =>
      cases hsk : getMap spec "sigstoreKeys" with
      | none =>
          rw [updateYAML_err_sk _ _ _ _ _ _ _ _ hspec hsk] at h
          cases h
      | some sk =>
          rw [updateYAML_eq _ _ _ _ _ _ _ _ _ hspec hsk] at h
          injection h with h1
          exact ⟨spec, sk, rfl, hsk, h1.symm⟩

/-! ## The claims -/

/-- C1, counterexample. The claim says a freshly initialized authority
sequence holds empty mappings below `index`. On the code,
`make([]interface{}, index+1)` fills the fresh slice with nil interfaces
and the growing loop then never runs, so position 0 of the result for
`index = 1` is null, which is not an empty mapping. -/
theorem C1_fresh_null_counterexample :
    updateYAML [("spec", Value.map [("sigstoreKeys", Value.map [])])]
        "certificateAuthorities" 1 [] [] [] [] =
      Except.ok [("spec", Value.map [("sigstoreKeys", Value.map
        [("certificateAuthorities", Value.seq [Value.null, Value.map
          [("subject", Value.map [("organization", Value.str []),
            ("commonName", Value.str [])]),
           ("uri", Value.str []), ("certChain", Value.str [])]])])])] ∧
    Value.null ≠ Value.map [] := by
  constructor
  · rfl
  · intro h
    cases h

/-- C1, amended: when the sequence for the authority kind is absent or
not a sequence, `updateYAML` initializes a fresh sequence of length
`index + 1` whose positions below `index` all hold null (nil interfaces,
not empty mappings); position `index` receives the patched entry. -/
theorem C1_fresh_list (root spec sk : List (String × Value)) (authority : String)
    (index : Nat) (organization commonName uri certChain : List Nat)
    (hspec : getMap root "spec" = some spec)
    (hsk : getMap spec "sigstoreKeys" = some sk)
    (habsent : getSeq sk authority = none) :
    ∃ root1 spec1 sk1 l1,
      updateYAML root authority index organization commonName uri certChain =
        Except.ok root1 ∧
      getMap root1 "spec" = some spec1 ∧
      getMap spec1 "sigstoreKeys" = some sk1 ∧
      getSeq sk1 authority = some l1 ∧
      l1.length = index + 1 ∧
      (∀ j, j < index → l1[j]? = some Value.null) ∧
      l1[index]? = some (Value.map
        (patchedEntry [] organization commonName uri certChain)) := by
  have hbase : baseList sk authority index = List.replicate (index + 1) Value.null := by
    rw [baseList_of_getSeq_none _ _ _ habsent, growList_of_lt]
    simp
  refine ⟨_, _, _, _, updateYAML_eq _ _ _ _ _ _ _ _ _ hspec hsk,
    getMap_setKey_self _ _ _, getMap_setKey_self _ _ _, getSeq_setKey_self _ _ _,
    ?_, ?_, ?_⟩
  · rw [updatedList_length, hbase]
    simp
  · intro j hj
    rw [updatedList_getElem?_ne _ _ _ _ _ _ _ _ (by omega), hbase,
      List.getElem?_replicate, if_pos (by omega)]
  · have := updatedList_getElem?_self sk authority index organization commonName uri
      certChain
    rw [this]
    have : entryAt (baseList sk authority index) index = [] := by
      unfold entryAt
      rw [hbase, List.getElem?_replicate, if_pos (by omega)]
    rw [this]

/-- C1 amended, witness at `index = 1` on a document with an absent
authority sequence. -/
theorem C1_fresh_list_witness :
    ∃ root1 spec1 sk1 l1,
      updateYAML [("spec", Value.map [("sigstoreKeys", Value.map [])])]
          "certificateAuthorities" 1 [] [] [] [] = Except.ok root1 ∧
      getMap root1 "spec" = some spec1 ∧
      getMap spec1 "sigstoreKeys" = some sk1 ∧
      getSeq sk1 "certificateAuthorities" = some l1 ∧
      l1.length = 1 + 1 ∧
      (∀ j, j < 1 → l1[j]? = some Value.null) ∧
      l1[1]? = some (Value.map (patchedEntry [] [] [] [] [])) :=
  C1_fresh_list [("spec", Value.map [("sigstoreKeys", Value.map [])])]
    [("sigstoreKeys", Value.map [])] [] "certificateAuthorities" 1 [] [] [] []
    rfl rfl rfl

/-- C2: patching index `k` on an existing sequence of length `m < k + 1`
grows it to length exactly `k + 1`; indices `[m, k-1]` become empty
mappings, indices `[0, m-1]` keep the original elements. -/
theorem C2_growing (root spec sk : List (String × Value)) (authority : String)
    (l : List Value) (k : Nat) (organization commonName uri certChain : List Nat)
    (hspec : getMap root "spec" = some spec)
    (hsk : getMap spec "sigstoreKeys" = some sk)
    (hl : getSeq sk authority = some l)
    (hshort : l.length < k + 1) :
    ∃ root1 spec1 sk1 l1,
      updateYAML root authority k organization commonName uri certChain =
        Except.ok root1 ∧
      getMap root1 "spec" = some spec1 ∧
      getMap spec1 "sigstoreKeys" = some sk1 ∧
      getSeq sk1 authority = some l1 ∧
      l1.length = k + 1 ∧
      (∀ j, l.length ≤ j → j < k → l1[j]? = some (Value.map [])) ∧
      (∀ j, j < l.length → l1[j]? = l[j]?) := by
  have hbase : baseList sk authority k = growList l k := baseList_of_getSeq _ _ _ _ hl
  refine ⟨_, _, _, _, updateYAML_eq _ _ _ _ _ _ _ _ _ hspec hsk,
    getMap_setKey_self _ _ _, getMap_setKey_self _ _ _, getSeq_setKey_self _ _ _,
    ?_, ?_, ?_⟩
  · rw [updatedList_length, hbase, growList_length]
    omega
  · intro j hj1 hj2
    rw [updatedList_getElem?_ne _ _ _ _ _ _ _ _ (by omega), hbase,
      growList_getElem?_ge _ _ _ hj1 (by omega)]
  · intro j hj
    rw [updatedList_getElem?_ne _ _ _ _ _ _ _ _ (by omega), hbase,
      growList_getElem?_lt _ _ _ hj]

/-- C2 witness: an existing one-element sequence patched at index 2. -/
theorem C2_growing_witness :
    ∃ root1 spec1 sk1 l1,
      updateYAML [("spec", Value.map [("sigstoreKeys", Value.map
          [("timestampAuthorities", Value.seq [Value.str [7]])])])]
          "timestampAuthorities" 2 [] [] [] [] = Except.ok root1 ∧
      getMap root1 "spec" = some spec1 ∧
      getMap spec1 "sigstoreKeys" = some sk1 ∧
      getSeq sk1 "timestampAuthorities" = some l1 ∧
      l1.length = 2 + 1 ∧
      (∀ j, [Value.str [7]].length ≤ j → j < 2 → l1[j]? = some (Value.map [])) ∧
      (∀ j, j < [Value.str [7]].length → l1[j]? = [Value.str [7]][j]?) :=
  C2_growing [("spec", Value.map [("sigstoreKeys", Value.map
      [("timestampAuthorities", Value.seq [Value.str [7]])])])]
    [("sigstoreKeys", Value.map [("timestampAuthorities", Value.seq [Value.str [7]])])]
    [("timestampAuthorities", Value.seq [Value.str [7]])]
    "timestampAuthorities" [Value.str [7]] 2 [] [] [] [] rfl rfl rfl (by decide)

/-- C4: an empty template-file path or trusted-root path is fatal: `main`
exits with an error (modelled by `Except.error`) before any output
document is produced. -/
theorem C4_required_flags (templateFilePath trustedRootPath : List Nat)
    (parseOk : List Nat → Bool) (trustedRoot : List (String × Value))
    (organization commonName uri : List Nat) (templateDoc : List (String × Value))
    (h : templateFilePath = [] ∨ trustedRootPath = []) :
    ∃ e, mainModel templateFilePath trustedRootPath parseOk trustedRoot
        organization commonName uri templateDoc = Except.error e := by
  by_cases ht : templateFilePath = []
  · exact ⟨"The --template-filename flag is required", by simp [mainModel, ht]⟩
  · rcases h with h | h
    · exact absurd h ht
    · exact ⟨"The --trusted-root-path flag is required", by simp [mainModel, ht, h]⟩

/-- C4 witness: both required flags empty. -/
theorem C4_required_flags_witness :
    ∃ e, mainModel [] [] (fun _ => true) [] [] [] [] [] = Except.error e :=
  C4_required_flags [] [] (fun _ => true) [] [] [] [] [] (Or.inl rfl)

/-- C5: an authority entry that is not a mapping, or has no `certChain`
mapping, or no `certificates` sequence, is skipped without aborting: the
output document is unchanged for that entry and processing continues with
the next entry of the list. -/
theorem C5_entry_skip (parseOk : List Nat → Bool) (authority : String)
    (organization commonName uri : List Nat) (i : Nat) (v : Value)
    (rest : List Value) (doc : List (String × Value))
    (h : (∀ m, v ≠ Value.map m) ∨
         (∃ m, v = Value.map m ∧ getMap m "certChain" = none) ∨
         (∃ m ccm, v = Value.map m ∧ getMap m "certChain" = some ccm ∧
           getSeq ccm "certificates" = none)) :
    processEntry parseOk authority i v organization commonName uri doc = doc ∧
    processEntriesFrom parseOk authority organization commonName uri i
        (v :: rest) doc =
      processEntriesFrom parseOk authority organization commonName uri (i + 1)
        rest doc := by
  have hnone : entryCertChain parseOk v = none := by
    rcases h with h | ⟨m, rfl, hm⟩ | ⟨m, ccm, rfl, hm, hc⟩
    · cases v with
      | map m => exact absurd rfl (h m)
      | null => rfl
      | str s => rfl
      | num n => rfl
      | bool b => rfl
      | seq l => rfl
    · simp [entryCertChain, hm]
    · simp [entryCertChain, hm, hc]
  refine ⟨by simp [processEntry, hnone], ?_⟩
  simp [processEntriesFrom, processEntry, hnone]

/-- C5 witness: a null entry is skipped and processing continues. -/
theorem C5_entry_skip_witness :
    processEntry (fun _ => true) "certificateAuthorities" 0 Value.null [] [] []
        [("spec", Value.map [])] = [("spec", Value.map [])] ∧
    processEntriesFrom (fun _ => true) "certificateAuthorities" [] [] [] 0
        (Value.null :: []) [("spec", Value.map [])] =
      processEntriesFrom (fun _ => true) "certificateAuthorities" [] [] [] (0 + 1)
        [] [("spec", Value.map [])] :=
  C5_entry_skip (fun _ => true) "certificateAuthorities" [] [] [] 0 Value.null []
    [("spec", Value.map [])] (Or.inl (fun m hm => Value.noConfusion hm))

/-- All certificates of a chain failing leaves the accumulated PEM text
empty. -/
theorem buildPemData_all_fail (parseOk : List Nat → Bool) (certs : List Value)
    (h : ∀ c ∈ certs, processCert parseOk c = none) :
    buildPemData parseOk certs = [] := by
  induction certs with
  | nil => rfl
  | cons c rest ih =>
      rw [buildPemData, h c (by simp), ih (fun c hc => h c (by simp [hc]))]
      rfl

/-- C6: a certificate that is not a mapping, or lacks a string `rawBytes`,
or whose base64 decoding or certificate parsing fails, is skipped alone:
the accumulated PEM text equals that of the chain without it, and the
entry still receives a `certChain` built from the surviving siblings. -/
theorem C6_cert_skip (parseOk : List Nat → Bool) (pre post : List Value) (bad : Value)
    (h : (∀ m, bad ≠ Value.map m) ∨
         (∃ m, bad = Value.map m ∧ getStr m "rawBytes" = none) ∨
         (∃ m raw, bad = Value.map m ∧ getStr m "rawBytes" = some raw ∧
           b64DecodeGo raw = none) ∨
         (∃ m raw der, bad = Value.map m ∧ getStr m "rawBytes" = some raw ∧
           b64DecodeGo raw = some der ∧ parseOk der = false)) :
    processCert parseOk bad = none ∧
    buildPemData parseOk (pre ++ bad :: post) = buildPemData parseOk (pre ++ post) ∧
    (∀ cm ccm, getMap cm "certChain" = some ccm →
      getSeq ccm "certificates" = some (pre ++ bad :: post) →
      entryCertChain parseOk (Value.map cm) =
        some (b64Encode (buildPemData parseOk (pre ++ post)))) := by
  have hnone : processCert parseOk bad = none := by
    rcases h with h | ⟨m, rfl, hm⟩ | ⟨m, raw, rfl, hm, hd⟩ | ⟨m, raw, der, rfl, hm, hd, hp⟩
    · cases bad with
      | map m => exact absurd rfl (h m)
      | null => rfl
      | str s => rfl
      | num n => rfl
      | bool b => rfl
      | seq l => rfl
    · simp [processCert, hm]
    · simp [processCert, hm, hd]
    · simp [processCert, convertToPEM, hm, hd, hp]
  have happ : buildPemData parseOk (pre ++ bad :: post) =
      buildPemData parseOk (pre ++ post) := by
    rw [buildPemData_append, buildPemData_append, buildPemData, hnone]
    rfl
  refine ⟨hnone, happ, fun cm ccm hcm hcc => ?_⟩
  simp [entryCertChain, hcm, hcc, happ]

/-- C6 witness: a null certificate between two absent siblings. -/
theorem C6_cert_skip_witness :
    processCert (fun _ => true) Value.null = none ∧
    buildPemData (fun _ => true) ([] ++ Value.null :: []) =
      buildPemData (fun _ => true) ([] ++ []) ∧
    (∀ cm ccm, getMap cm "certChain" = some ccm →
      getSeq ccm "certificates" = some ([] ++ Value.null :: []) →
      entryCertChain (fun _ => true) (Value.map cm) =
        some (b64Encode (buildPemData (fun _ => true) ([] ++ [])))) :=
  C6_cert_skip (fun _ => true) [] [] Value.null
    (Or.inl (fun m hm => Value.noConfusion hm))

/-- C3: the `certChain` written for a well-formed authority entry is the
base64 encoding of the concatenation, in original chain order, of the PEM
blocks of the certificates that decoded and parsed; every produced block
begins with the `-----BEGIN CERTIFICATE-----` line and ends with the
`-----END CERTIFICATE-----` line; base64-decoding the written value
recovers exactly that concatenation; zero certificates yield the base64
encoding of the empty string (the empty string). -/
theorem C3_certchain (parseOk : List Nat → Bool) (cm ccm : List (String × Value))
    (certs : List Value)
    (hcm : getMap cm "certChain" = some ccm)
    (hcc : getSeq ccm "certificates" = some certs) :
    entryCertChain parseOk (Value.map cm) =
      some (b64Encode (buildPemData parseOk certs)) ∧
    buildPemData parseOk certs = (certs.filterMap (processCert parseOk)).join ∧
    (∀ c ∈ certs, ∀ cm2 raw der, c = Value.map cm2 →
      getStr cm2 "rawBytes" = some raw → b64DecodeGo raw = some der →
      parseOk der = true →
        processCert parseOk c = some (pemEncode der) ∧
        (∃ rest, pemEncode der = beginLine ++ rest) ∧
        (∃ front, pemEncode der = front ++ endLine)) ∧
    b64DecodeGo (b64Encode (buildPemData parseOk certs)) =
      some (buildPemData parseOk certs) ∧
    (certs = [] → b64Encode (buildPemData parseOk certs) = []) := by
  refine ⟨by simp [entryCertChain, hcm, hcc], buildPemData_eq_join parseOk certs,
    ?_, b64Go_roundtrip _ (buildPemData_bytes parseOk certs), ?_⟩
  · rintro c hc cm2 raw der rfl hraw hdec hp
    refine ⟨processCert_eq_some parseOk cm2 raw der hraw hdec hp, ?_, ?_⟩
    · exact ⟨wrap64 (b64Encode der) ++ endLine, by rw [pemEncode, List.append_assoc]⟩
    · exact ⟨beginLine ++ wrap64 (b64Encode der), rfl⟩
  · rintro rfl
    rfl

/-- C3 witness: a one-certificate chain whose `rawBytes` is the base64
encoding of the DER bytes `[1, 2, 3]`, with an accepting parser. -/
theorem C3_certchain_witness :
    entryCertChain (fun _ => true)
        (Value.map [("certChain", Value.map [("certificates",
          Value.seq [Value.map [("rawBytes", Value.str (b64Encode [1, 2, 3]))]])])]) =
      some (b64Encode (buildPemData (fun _ => true)
        [Value.map [("rawBytes", Value.str (b64Encode [1, 2, 3]))]])) ∧
    buildPemData (fun _ => true)
        [Value.map [("rawBytes", Value.str (b64Encode [1, 2, 3]))]] =
      (([Value.map [("rawBytes", Value.str (b64Encode [1, 2, 3]))]]).filterMap
        (processCert (fun _ => true))).join ∧
    (∀ c ∈ [Value.map [("rawBytes", Value.str (b64Encode [1, 2, 3]))]],
      ∀ cm2 raw der, c = Value.map cm2 →
      getStr cm2 "rawBytes" = some raw → b64DecodeGo raw = some der →
      (fun _ => true) der = true →
        processCert (fun _ => true) c = some (pemEncode der) ∧
        (∃ rest, pemEncode der = beginLine ++ rest) ∧
        (∃ front, pemEncode der = front ++ endLine)) ∧
    b64DecodeGo (b64Encode (buildPemData (fun _ => true)
        [Value.map [("rawBytes", Value.str (b64Encode [1, 2, 3]))]])) =
      some (buildPemData (fun _ => true)
        [Value.map [("rawBytes", Value.str (b64Encode [1, 2, 3]))]]) ∧
    ([Value.map [("rawBytes", Value.str (b64Encode [1, 2, 3]))]] = ([] : List Value) →
      b64Encode (buildPemData (fun _ => true)
        [Value.map [("rawBytes", Value.str (b64Encode [1, 2, 3]))]]) = []) :=
  C3_certchain (fun _ => true)
    [("certChain", Value.map [("certificates",
      Value.seq [Value.map [("rawBytes", Value.str (b64Encode [1, 2, 3]))]])])]
    [("certificates", Value.seq [Value.map [("rawBytes", Value.str (b64Encode [1, 2, 3]))]])]
    [Value.map [("rawBytes", Value.str (b64Encode [1, 2, 3]))]] rfl rfl

/-- C10: `convertToPEM` succeeds exactly when the certificate parser
accepts the DER bytes, and on success the block is the PEM encoding of
the unaltered input bytes: stripping CR/LF from its base64 body and
decoding yields exactly the input DER. -/
theorem C10_convertToPEM (parseOk : List Nat → Bool) (cert : List Nat)
    (hbytes : ∀ b ∈ cert, b < 256) :
    ((∃ s, convertToPEM parseOk cert = Except.ok s) ↔ parseOk cert = true) ∧
    (parseOk cert = true →
      convertToPEM parseOk cert =
        Except.ok (beginLine ++ wrap64 (b64Encode cert) ++ endLine) ∧
      b64DecodeGo (wrap64 (b64Encode cert)) = some cert) := by
  constructor
  · constructor
    · rintro ⟨s, hs⟩
      by_cases hp : parseOk cert
      · exact hp
      · simp [convertToPEM, hp] at hs
    · intro hp
      exact ⟨pemEncode cert, by simp [convertToPEM, hp]⟩
  · intro hp
    exact ⟨by simp [convertToPEM, pemEncode, hp], wrap64_roundtrip cert hbytes⟩

/-- C10 witness at the DER bytes `[1, 2, 3]` with an accepting parser. -/
theorem C10_convertToPEM_witness :
    ((∃ s, convertToPEM (fun _ => true) [1, 2, 3] = Except.ok s) ↔
      (fun _ => true) [1, 2, 3] = true) ∧
    ((fun _ => true) [1, 2, 3] = true →
      convertToPEM (fun _ => true) [1, 2, 3] =
        Except.ok (beginLine ++ wrap64 (b64Encode [1, 2, 3]) ++ endLine) ∧
      b64DecodeGo (wrap64 (b64Encode [1, 2, 3])) = some [1, 2, 3]) :=
  C10_convertToPEM (fun _ => true) [1, 2, 3] (by decide)

/-- C7: a second `updateYAML` with identical arguments on the document
produced by a first successful one changes nothing: it returns the same
document tree. -/
theorem C7_idempotent (root root1 : List (String × Value)) (authority : String)
    (index : Nat) (organization commonName uri certChain : List Nat)
    (h : updateYAML root authority index organization commonName uri certChain =
      Except.ok root1) :
    updateYAML root1 authority index organization commonName uri certChain =
      Except.ok root1 := by
  obtain ⟨spec, sk, hspec, hsk, rfl⟩ := updateYAML_ok_inv _ _ _ _ _ _ _ _ h
  set l1 := updatedList sk authority index organization commonName uri certChain
    with hl1
  set sk1 := setKey sk authority (Value.seq l1) with hsk1
  set spec1 := setKey spec "sigstoreKeys" (Value.map sk1) with hspec1
  have hspec' : getMap (setKey root "spec" (Value.map spec1)) "spec" = some spec1 :=
    getMap_setKey_self _ _ _
  have hsk' : getMap spec1 "sigstoreKeys" = some sk1 := by
    rw [hspec1]
    exact getMap_setKey_self _ _ _
  rw [updateYAML_eq _ spec1 sk1 _ _ _ _ _ _ hspec' hsk']
  have hseq : getSeq sk1 authority = some l1 := by
    rw [hsk1]
    exact getSeq_setKey_self _ _ _
  have hlen : index < l1.length := by
    rw [hl1, updatedList_length]
    exact baseList_length_pos _ _ _
  have hbase1 : baseList sk1 authority index = l1 := by
    rw [baseList_of_getSeq _ _ _ _ hseq, growList_of_lt _ _ hlen]
  have hentry : entryAt l1 index =
      patchedEntry (entryAt (baseList sk authority index) index)
        organization commonName uri certChain := by
    unfold entryAt
    rw [hl1, updatedList_getElem?_self]
    rfl
  have hupd : updatedList sk1 authority index organization commonName uri certChain
      = l1 := by
    unfold updatedList
    rw [hbase1, hentry, patchedEntry_idem, hl1]
    unfold updatedList
    rw [List.set_set]
  have h1 : setKey sk1 authority (Value.seq l1) = sk1 :=
    setKey_of_lookupKey _ _ _ (by rw [hsk1]; exact lookupKey_setKey_self _ _ _)
  have h2 : setKey spec1 "sigstoreKeys" (Value.map sk1) = spec1 :=
    setKey_of_lookupKey _ _ _ (by rw [hspec1]; exact lookupKey_setKey_self _ _ _)
  have h3 : setKey (setKey root "spec" (Value.map spec1)) "spec" (Value.map spec1) =
      setKey root "spec" (Value.map spec1) :=
    setKey_of_lookupKey _ _ _ (lookupKey_setKey_self _ _ _)
  rw [hupd, h1, h2, h3]

/-- C7 witness: patching a fresh template twice at index 0. -/
theorem C7_idempotent_witness :
    updateYAML [("spec", Value.map [("sigstoreKeys", Value.map
        [("certificateAuthorities", Value.seq [Value.map
          [("subject", Value.map [("organization", Value.str []),
            ("commonName", Value.str [])]),
           ("uri", Value.str []), ("certChain", Value.str [])]])])])]
      "certificateAuthorities" 0 [] [] [] [] =
    Except.ok [("spec", Value.map [("sigstoreKeys", Value.map
        [("certificateAuthorities", Value.seq [Value.map
          [("subject", Value.map [("organization", Value.str []),
            ("commonName", Value.str [])]),
           ("uri", Value.str []), ("certChain", Value.str [])]])])])] :=
  C7_idempotent [("spec", Value.map [("sigstoreKeys", Value.map [])])]
    [("spec", Value.map [("sigstoreKeys", Value.map
      [("certificateAuthorities", Value.seq [Value.map
        [("subject", Value.map [("organization", Value.str []),
          ("commonName", Value.str [])]),
         ("uri", Value.str []), ("certChain", Value.str [])]])])])]
    "certificateAuthorities" 0 [] [] [] [] rfl

/-- C8 (frame): a successful `updateYAML` for authority kind `authority`
and index `index` changes only the sequence at `spec.sigstoreKeys` for
that kind: other top-level keys, other keys of `spec` and of
`sigstoreKeys`, other elements of the sequence, and fields of the entry
at `index` other than `subject`, `uri` and `certChain` are preserved. -/
theorem C8_frame (root spec sk root1 : List (String × Value)) (authority : String)
    (index : Nat) (organization commonName uri certChain : List Nat)
    (hspec : getMap root "spec" = some spec)
    (hsk : getMap spec "sigstoreKeys" = some sk)
    (h : updateYAML root authority index organization commonName uri certChain =
      Except.ok root1) :
    (∀ k, k ≠ "spec" → lookupKey root1 k = lookupKey root k) ∧
    ∃ spec1 sk1 l1,
      getMap root1 "spec" = some spec1 ∧
      (∀ k, k ≠ "sigstoreKeys" → lookupKey spec1 k = lookupKey spec k) ∧
      getMap spec1 "sigstoreKeys" = some sk1 ∧
      (∀ k, k ≠ authority → lookupKey sk1 k = lookupKey sk k) ∧
      getSeq sk1 authority = some l1 ∧
      (∀ l, getSeq sk authority = some l →
        ∀ j, j ≠ index → j < l.length → l1[j]? = l[j]?) ∧
      (∀ l e, getSeq sk authority = some l → l[index]? = some (Value.map e) →
        ∃ e1, l1[index]? = some (Value.map e1) ∧
          ∀ k, k ≠ "subject" → k ≠ "uri" → k ≠ "certChain" →
            lookupKey e1 k = lookupKey e k) := by
  rw [updateYAML_eq _ _ _ _ _ _ _ _ _ hspec hsk] at h
  injection h with h1
  subst h1
  refine ⟨fun k hk => lookupKey_setKey_ne _ _ _ _ hk, _, _, _,
    getMap_setKey_self _ _ _, fun k hk => lookupKey_setKey_ne _ _ _ _ hk,
    getMap_setKey_self _ _ _, fun k hk => lookupKey_setKey_ne _ _ _ _ hk,
    getSeq_setKey_self _ _ _, ?_, ?_⟩
  · intro l hl j hj hjl
    rw [updatedList_getElem?_ne _ _ _ _ _ _ _ _ hj,
      baseList_of_getSeq _ _ _ _ hl, growList_getElem?_lt _ _ _ hjl]
  · intro l e hl he
    have hlen : index < l.length := by
      by_contra hcon
      rw [List.getElem?_eq_none (by omega)] at he
      cases he
    refine ⟨patchedEntry (entryAt (baseList sk authority index) index)
        organization commonName uri certChain,
      updatedList_getElem?_self _ _ _ _ _ _ _, fun k h1 h2 h3 => ?_⟩
    have hent : entryAt (baseList sk authority index) index = e := by
      unfold entryAt
      rw [baseList_of_getSeq _ _ _ _ hl, growList_getElem?_lt _ _ _ hlen, he]
    rw [hent, patchedEntry_frame _ _ _ _ _ _ h1 h2 h3]

/-- C8 witness: a one-element sequence whose entry carries an extra
field, patched at index 0. -/
theorem C8_frame_witness :
    (∀ k, k ≠ "spec" →
      lookupKey [("spec", Value.map [("sigstoreKeys", Value.map
          [("certificateAuthorities", Value.seq [Value.map
            [("extra", Value.num 5),
             ("subject", Value.map [("organization", Value.str []),
               ("commonName", Value.str [])]),
             ("uri", Value.str []), ("certChain", Value.str [])]])])])] k =
        lookupKey [("spec", Value.map [("sigstoreKeys", Value.map
          [("certificateAuthorities",
            Value.seq [Value.map [("extra", Value.num 5)]])])])] k) ∧
    ∃ spec1 sk1 l1,
      getMap [("spec", Value.map [("sigstoreKeys", Value.map
          [("certificateAuthorities", Value.seq [Value.map
            [("extra", Value.num 5),
             ("subject", Value.map [("organization", Value.str []),
               ("commonName", Value.str [])]),
             ("uri", Value.str []), ("certChain", Value.str [])]])])])] "spec"
        = some spec1 ∧
      (∀ k, k ≠ "sigstoreKeys" → lookupKey spec1 k =
        lookupKey [("sigstoreKeys", Value.map [("certificateAuthorities",
          Value.seq [Value.map [("extra", Value.num 5)]])])] k) ∧
      getMap spec1 "sigstoreKeys" = some sk1 ∧
      (∀ k, k ≠ "certificateAuthorities" → lookupKey sk1 k =
        lookupKey [("certificateAuthorities",
          Value.seq [Value.map [("extra", Value.num 5)]])] k) ∧
      getSeq sk1 "certificateAuthorities" = some l1 ∧
      (∀ l, getSeq [("certificateAuthorities",
          Value.seq [Value.map [("extra", Value.num 5)]])]
          "certificateAuthorities" = some l →
        ∀ j, j ≠ 0 → j < l.length → l1[j]? = l[j]?) ∧
      (∀ l e, getSeq [("certificateAuthorities",
          Value.seq [Value.map [("extra", Value.num 5)]])]
          "certificateAuthorities" = some l →
        l[0]? = some (Value.map e) →
        ∃ e1, l1[0]? = some (Value.map e1) ∧
          ∀ k, k ≠ "subject" → k ≠ "uri" → k ≠ "certChain" →
            lookupKey e1 k = lookupKey e k) :=
  C8_frame [("spec", Value.map [("sigstoreKeys", Value.map
      [("certificateAuthorities", Value.seq [Value.map [("extra", Value.num 5)]])])])]
    [("sigstoreKeys", Value.map [("certificateAuthorities",
      Value.seq [Value.map [("extra", Value.num 5)]])])]
    [("certificateAuthorities", Value.seq [Value.map [("extra", Value.num 5)]])]
    [("spec", Value.map [("sigstoreKeys", Value.map
      [("certificateAuthorities", Value.seq [Value.map
        [("extra", Value.num 5),
         ("subject", Value.map [("organization", Value.str []),
           ("commonName", Value.str [])]),
         ("uri", Value.str []), ("certChain", Value.str [])]])])])]
    "certificateAuthorities" 0 [] [] [] [] rfl rfl rfl

/-- C9: an entry whose `certChain.certificates` sequence is well-formed
but in which every certificate fails transcoding is still patched into
the output, with `certChain` the base64 encoding of the empty string
(the empty string itself). -/
theorem C9_entry_written (parseOk : List Nat → Bool) (cm ccm : List (String × Value))
    (certs : List Value) (authority : String) (i : Nat)
    (organization commonName uri : List Nat) (doc spec sk : List (String × Value))
    (hcm : getMap cm "certChain" = some ccm)
    (hcc : getSeq ccm "certificates" = some certs)
    (hfail : ∀ c ∈ certs, processCert parseOk c = none)
    (hspec : getMap doc "spec" = some spec)
    (hsk : getMap spec "sigstoreKeys" = some sk) :
    entryCertChain parseOk (Value.map cm) = some [] ∧
    ∃ doc1 spec1 sk1 l1 e1,
      processEntry parseOk authority i (Value.map cm) organization commonName uri
        doc = doc1 ∧
      updateYAML doc authority i organization commonName uri [] = Except.ok doc1 ∧
      getMap doc1 "spec" = some spec1 ∧
      getMap spec1 "sigstoreKeys" = some sk1 ∧
      getSeq sk1 authority = some l1 ∧
      l1[i]? = some (Value.map e1) ∧
      lookupKey e1 "certChain" = some (Value.str []) := by
  have hchain : entryCertChain parseOk (Value.map cm) = some [] := by
    simp only [entryCertChain, hcm, hcc, buildPemData_all_fail parseOk certs hfail]
    rfl
  refine ⟨hchain, _, _, _, _, _, ?_,
    updateYAML_eq _ _ _ _ _ _ _ _ _ hspec hsk,
    getMap_setKey_self _ _ _, getMap_setKey_self _ _ _, getSeq_setKey_self _ _ _,
    updatedList_getElem?_self _ _ _ _ _ _ _,
    (patchedEntry_fields _ _ _ _ _).1⟩
  simp only [processEntry, hchain]
  rw [updateYAML_eq _ _ _ _ _ _ _ _ _ hspec hsk]

/-- C9 witness: a chain with a single null certificate. -/
theorem C9_entry_written_witness :
    entryCertChain (fun _ => true)
        (Value.map [("certChain", Value.map
          [("certificates", Value.seq [Value.null])])]) = some [] ∧
    ∃ doc1 spec1 sk1 l1 e1,
      processEntry (fun _ => true) "timestampAuthorities" 0
        (Value.map [("certChain", Value.map
          [("certificates", Value.seq [Value.null])])]) [] [] []
        [("spec", Value.map [("sigstoreKeys", Value.map [])])] = doc1 ∧
      updateYAML [("spec", Value.map [("sigstoreKeys", Value.map [])])]
        "timestampAuthorities" 0 [] [] [] [] = Except.ok doc1 ∧
      getMap doc1 "spec" = some spec1 ∧
      getMap spec1 "sigstoreKeys" = some sk1 ∧
      getSeq sk1 "timestampAuthorities" = some l1 ∧
      l1[0]? = some (Value.map e1) ∧
      lookupKey e1 "certChain" = some (Value.str []) :=
  C9_entry_written (fun _ => true)
    [("certChain", Value.map [("certificates", Value.seq [Value.null])])]
    [("certificates", Value.seq [Value.null])] [Value.null]
    "timestampAuthorities" 0 [] [] []
    [("spec", Value.map [("sigstoreKeys", Value.map [])])]
    [("sigstoreKeys", Value.map [])] [] rfl rfl
    (by simp [processCert]) rfl rfl

end ATR
